import Mathlib

/-!
Verification development for the `mediaire_toolbox` transaction database:
a shallow embedding of `mediaire_toolbox/transaction_db/transaction_db.py`
and `mediaire_toolbox/transaction_db/migrations.py`, together with theorems
settling the specification's claims about schema migration and the
transaction-lifecycle state store.

Conventions of the embedding:
* SQL/ORM rows become Lean structures; nullable columns become `Option` fields.
* Timestamps are abstract instants (`Nat`); the wall clock is passed in as a
  `now` argument to each operation that reads it.
* Python truthiness tests (`if x:`) on optional values are modelled by
  explicit `Option` emptiness/zero/empty-string checks, mirroring which
  values are falsy in Python.
* A session with commit/rollback becomes explicit state passing: the
  committed store is a `Store` value, and where the distinction between
  committed data and changes merely registered in the session matters
  (the migration engine, `create_transaction`) the pending part of the
  session is carried alongside the committed part.
* Exceptions become `Except` results.
-/

namespace MediaireToolbox

/-- Task state enum.  Modelled from the spec: `mediaire_toolbox/task_state.py`
is not under `src/`; the spec (§3) fixes the enum
`{Queued, Processing, Completed, Failed}`, matching the four members
used by `transaction_db.py` (`TaskState.queued`, `.processing`,
`.completed`, `.failed`). -/
inductive TaskState where
  | queued
  | processing
  | completed
  | failed
deriving DecidableEq, Repr

/-- Errors raised by the store.  Modelled from the spec:
`mediaire_toolbox/transaction_db/exceptions.py` is not under `src/`;
`transaction_db.py` raises `TransactionDBException` with a message string. -/
inductive TDBError where
  | transactionDBException (msg : String)
deriving DecidableEq, Repr

/-! ## Schema migration: row-level semantics of `migrations.MIGRATIONS`

`migrations.py` is a mapping from target version to an ordered list of SQL
statements.  Only five statement shapes occur; we embed them as an inductive
type and give each its row-level and schema-level (column default) meaning.
-/

/-- The columns added by migrations 2–5 (`migrations.py`). -/
inductive MigCol where
  | task_progress
  | task_skipped
  | task_cancelled
  | status
  | institution
  | sequences
deriving DecidableEq, Repr

/-- The statement shapes occurring in `migrations.MIGRATIONS`. -/
inductive MigStmt where
  /-- `ALTER TABLE transactions ADD COLUMN c INT DEFAULT d` -/
  | addIntColumnDefault (c : MigCol) (d : Int)
  /-- `ALTER TABLE transactions ADD COLUMN c TEXT` -/
  | addTextColumn (c : MigCol)
  /-- `UPDATE transactions SET task_progress = v WHERE processing_state = s` -/
  | setProgressWhereState (v : Int) (s : String)
  /-- `UPDATE transactions SET status = v WHERE processing_state = s` -/
  | setStatusWhereStateEq (v : String) (s : String)
  /-- `UPDATE transactions SET status = v WHERE processing_state != s` -/
  | setStatusWhereStateNe (v : String) (s : String)
deriving DecidableEq, Repr

/-- `migrations.MIGRATIONS`, keyed by target version (`migrations.py`,
lines 3–26), statement by statement in source order. -/
def MIGRATIONS : Nat → List MigStmt
  | 2 => [.addIntColumnDefault .task_progress 0,
          .setProgressWhereState 10 "spm_lesion",
          .setProgressWhereState 10 "spm_volumetry",
          .setProgressWhereState 80 "volumetry_assessment",
          .setProgressWhereState 90 "report",
          .setProgressWhereState 100 "send_to_pacs"]
  | 3 => [.addIntColumnDefault .task_skipped 0]
  | 4 => [.addIntColumnDefault .task_cancelled 0]
  | 5 => [.addTextColumn .status,
          .addTextColumn .institution,
          .addTextColumn .sequences,
          .setStatusWhereStateEq "sent_to_pacs" "send_to_pacs",
          .setStatusWhereStateNe "unseen" "send_to_pacs"]
  | _ => []

/-- A `transactions` row as seen by the migration statements: the columns the
statements touch.  Columns added by a later migration are `Option`-valued
(absent/NULL before the `ALTER TABLE` that introduces them). -/
structure MigRow where
  processing_state : String
  task_progress : Option Int := none
  task_skipped : Option Int := none
  task_cancelled : Option Int := none
  status : Option String := none
  institution : Option String := none
  sequences : Option String := none
deriving DecidableEq, Repr

/-- Column defaults of the migrated table schema: for each added column,
whether it exists and what default a newly inserted row receives
(`none` in the inner option = the column exists with NULL default). -/
structure MigSchema where
  task_progress : Option (Option Int) := none
  task_skipped : Option (Option Int) := none
  task_cancelled : Option (Option Int) := none
  status : Option (Option String) := none
  institution : Option (Option String) := none
  sequences : Option (Option String) := none
deriving DecidableEq, Repr

/-- Effect of one migration statement on one pre-existing row.
`ADD COLUMN ... DEFAULT d` populates the new column with `d` on existing rows
(SQLite semantics); `ADD COLUMN ... TEXT` leaves it NULL; the `UPDATE`
statements assign where the `processing_state` predicate matches. -/
def applyMigStmt (stmt : MigStmt) (r : MigRow) : MigRow :=
  match stmt with
  | .addIntColumnDefault c d =>
      match c with
      | .task_progress => { r with task_progress := some d }
      | .task_skipped => { r with task_skipped := some d }
      | .task_cancelled => { r with task_cancelled := some d }
      | _ => r
  | .addTextColumn c =>
      match c with
      | .status => { r with status := none }
      | .institution => { r with institution := none }
      | .sequences => { r with sequences := none }
      | _ => r
  | .setProgressWhereState v s =>
      if r.processing_state = s then { r with task_progress := some v } else r
  | .setStatusWhereStateEq v s =>
      if r.processing_state = s then { r with status := some v } else r
  | .setStatusWhereStateNe v s =>
      if r.processing_state ≠ s then { r with status := some v } else r

/-- Effect of one migration statement on the table schema's column defaults. -/
def applyMigStmtSchema (stmt : MigStmt) (sch : MigSchema) : MigSchema :=
  match stmt with
  | .addIntColumnDefault c d =>
      match c with
      | .task_progress => { sch with task_progress := some (some d) }
      | .task_skipped => { sch with task_skipped := some (some d) }
      | .task_cancelled => { sch with task_cancelled := some (some d) }
      | _ => sch
  | .addTextColumn c =>
      match c with
      | .status => { sch with status := some none }
      | .institution => { sch with institution := some none }
      | .sequences => { sch with sequences := some none }
      | _ => sch
  | _ => sch

/-- The ascending version range `range(fromV + 1, target + 1)` walked by
`migrate` (`transaction_db.py` line 66) and `migrate_scripts` (line 35). -/
def versionRange (fromV target : Nat) : List Nat :=
  List.range' (fromV + 1) (target - fromV)

/-- Row-level effect of migrating from schema version `fromV` to `target`:
each version's statement batch in ascending order, statements in source
order (`migrate`, `transaction_db.py` lines 66–73). -/
def migrateRow (fromV target : Nat) (r : MigRow) : MigRow :=
  (versionRange fromV target).foldl
    (fun acc v => (MIGRATIONS v).foldl (fun a stmt => applyMigStmt stmt a) acc) r

/-- Schema-level (column default) effect of migrating from `fromV` to
`target`. -/
def migrateSchema (fromV target : Nat) (sch : MigSchema) : MigSchema :=
  (versionRange fromV target).foldl
    (fun acc v => (MIGRATIONS v).foldl (fun a stmt => applyMigStmtSchema stmt a) acc) sch

/-! ## Schema migration: transactional behaviour of the engine

`migrate` (`transaction_db.py` lines 49–85) and `migrate_scripts`
(lines 33–46) are embedded as a state machine over an `EngineState`
recording the committed schema version, the session's in-memory view of it,
the executed-but-uncommitted work, and an event trace.  Statements and
backfill scripts are abstracted to their one observable aspect here,
success or failure (`Bool`), supplied as configuration maps from target
version to an ordered list (`migrations.MIGRATIONS` / the script registry).
-/

/-- Observable events of a migration run. -/
inductive MigEv where
  /-- `session.execute(command)` of statement `idx` of version `v` succeeded. -/
  | execCmd (v idx : Nat)
  /-- the in-session `db_version.schema_version = v` assignment. -/
  | setVersion (v : Nat)
  /-- `session.commit()`. -/
  | commit
  /-- `session.rollback()`. -/
  | rollback
  /-- `session.close()`. -/
  | closeSession
  /-- backfill script `idx` registered for version `v` ran
  (`script(session, model)` in `migrate_scripts`). -/
  | runScript (v idx : Nat)
deriving DecidableEq, Repr

/-- Session + database state of the migration engine. -/
structure EngineState where
  /-- committed value of the `SchemaVersion` singleton. -/
  persisted_version : Nat
  /-- the session's in-memory `db_version.schema_version` attribute. -/
  session_version : Nat
  /-- committed (version, statement index) pairs of applied DDL statements. -/
  committed : List (Nat × Nat) := []
  /-- executed but not yet committed DDL statements of the open transaction. -/
  pending : List (Nat × Nat) := []
  /-- chronological event trace. -/
  trace : List MigEv := []
deriving DecidableEq, Repr

/-- `session.commit()`: pending work and the session's version attribute
become persistent together. -/
def commitSt (st : EngineState) : EngineState :=
  { st with persisted_version := st.session_version,
            committed := st.committed ++ st.pending,
            pending := [],
            trace := st.trace ++ [.commit] }

/-- `session.rollback()`: pending work is discarded and the session's
version attribute reverts to the committed value. -/
def rollbackSt (st : EngineState) : EngineState :=
  { st with session_version := st.persisted_version,
            pending := [],
            trace := st.trace ++ [.rollback] }

/-- `session.close()`. -/
def closeSt (st : EngineState) : EngineState :=
  { st with trace := st.trace ++ [.closeSession] }

/-- The inner `for command in migrations.MIGRATIONS[version]` loop
(`transaction_db.py` lines 70–71): execute version `v`'s statements in
order starting at index `idx`; a failing statement raises, leaving the
loop (`.error`). -/
def runCmds (v : Nat) (idx : Nat) (cs : List Bool) (st : EngineState) :
    Except EngineState EngineState :=
  match cs with
  | [] => .ok st
  | c :: rest =>
      if c then
        runCmds v (idx + 1) rest
          { st with pending := st.pending ++ [(v, idx)],
                    trace := st.trace ++ [.execCmd v idx] }
      else .error st

/-- One DDL migration step (`transaction_db.py` lines 69–77): run version
`v`'s statement batch; on success assign `db_version.schema_version = v`
and commit; on failure roll back, close the session and re-raise. -/
def migrateStep (cmds : Nat → List Bool) (v : Nat) (st : EngineState) :
    Except EngineState EngineState :=
  match runCmds v 0 (cmds v) st with
  | .ok st' =>
      .ok (commitSt { st' with session_version := v,
                               trace := st'.trace ++ [.setVersion v] })
  | .error st' => .error (closeSt (rollbackSt st'))

/-- The DDL pass of `migrate` (`transaction_db.py` lines 66–77) over an
explicit list of target versions; a failing step propagates and later
versions are never attempted. -/
def migrateDDL (cmds : Nat → List Bool) (vs : List Nat) (st : EngineState) :
    Except EngineState EngineState :=
  match vs with
  | [] => .ok st
  | v :: rest =>
      match migrateStep cmds v st with
      | .ok st' => migrateDDL cmds rest st'
      | .error st' => .error st'

/-- The per-version body of `migrate_scripts` (`transaction_db.py`
lines 37–39): run the scripts registered for version `v` in order; a
failing script raises. -/
def runScripts (v : Nat) (idx : Nat) (ss : List Bool) (st : EngineState) :
    Except EngineState EngineState :=
  match ss with
  | [] => .ok st
  | s :: rest =>
      if s then
        runScripts v (idx + 1) rest { st with trace := st.trace ++ [.runScript v idx] }
      else .error st

/-- Loop body of `migrate_scripts` for the version list: per version, run its
scripts then commit; on failure roll back, close and re-raise
(`transaction_db.py` lines 35–45). -/
def migrateScriptsLoop (scripts : Nat → List Bool) (vs : List Nat)
    (st : EngineState) : Except EngineState EngineState :=
  match vs with
  | [] => .ok st
  | v :: rest =>
      match runScripts v 0 (scripts v) st with
      | .ok st' => migrateScriptsLoop scripts rest (commitSt st')
      | .error st' => .error (closeSt (rollbackSt st'))

/-- `migrate_scripts(session, engine, current_version, target_version)`
(`transaction_db.py` lines 33–46): walk `range(current_version + 1,
target_version + 1)`, then close the session. -/
def migrate_scripts (scripts : Nat → List Bool) (current_version target_version : Nat)
    (st : EngineState) : Except EngineState EngineState :=
  match migrateScriptsLoop scripts (versionRange current_version target_version) st with
  | .ok st' => .ok (closeSt st')
  | .error st' => .error st'

/-- The second (backfill) pass of `migrate` (`transaction_db.py`
lines 78–85): `for version in range(from_schema_version + 1, target + 1)`,
each iteration calling
`migrate_scripts(session, engine, from_schema_version, target)` — the whole
range every time, regardless of the loop's own `version`. -/
def migrateSecondPass (scripts : Nat → List Bool) (fromV target : Nat)
    (vs : List Nat) (st : EngineState) : Except EngineState EngineState :=
  match vs with
  | [] => .ok st
  | _v :: rest =>
      match migrate_scripts scripts fromV target st with
      | .ok st' => migrateSecondPass scripts fromV target rest st'
      | .error st' => .error st'

/-- `migrate(session, engine, db_version)` (`transaction_db.py`
lines 49–85): the DDL pass over `range(from + 1, target + 1)`, then the
second pass over the same range.  `target` stands for the
`TRANSACTIONS_DB_SCHEMA_VERSION` constant. -/
def migrate (cmds scripts : Nat → List Bool) (fromV target : Nat)
    (st : EngineState) : Except EngineState EngineState :=
  match migrateDDL cmds (versionRange fromV target) st with
  | .ok st' => migrateSecondPass scripts fromV target (versionRange fromV target) st'
  | .error st' => .error st'

/-- Initial engine state for a store whose committed schema version is `v`. -/
def initEngine (v : Nat) : EngineState :=
  { persisted_version := v, session_version := v }

/-- State carried by a migration result, success or failure. -/
def outState (r : Except EngineState EngineState) : EngineState :=
  match r with
  | .ok st => st
  | .error st => st

/-- Whether a migration result is a propagated failure. -/
def isErr (r : Except EngineState EngineState) : Bool :=
  match r with
  | .ok _ => false
  | .error _ => true

/-- Success/failure profile of the actual `MIGRATIONS` dict: every statement
present succeeds (one `Bool` per statement of `MIGRATIONS`). -/
def migCmdsOk : Nat → List Bool :=
  fun v => (MIGRATIONS v).map (fun _ => true)

/-! ## The transaction-lifecycle store

A `transactions` row at the current schema.  Modelled from the spec for the
column list: `mediaire_toolbox/transaction_db/model.py` is not under `src/`,
so the fields are those of spec §3 plus every attribute `transaction_db.py`
reads or writes; the *operations* on them are translated from
`transaction_db.py` itself.  Integer-flag columns (`task_skipped`,
`task_cancelled`, `archived`, `patient_consent`) are `Nat` because the code
assigns them `0`/`1`.
-/

/-- One `transactions` row. -/
structure Transaction where
  transaction_id : Nat := 0
  task_state : TaskState := .queued
  processing_state : String := ""
  task_progress : Int := 0
  task_skipped : Nat := 0
  task_cancelled : Nat := 0
  archived : Nat := 0
  status : Option String := none
  error : Option String := none
  last_message : Option String := none
  creation_date : Option Nat := none
  start_date : Option Nat := none
  end_date : Option Nat := none
  patient_consent : Nat := 0
  qa_score : Option Int := none
  billable : Option String := none
  priority : Option Int := none
  product_id : Option Nat := none
  analysis_type : Option String := none
  institution : Option String := none
  sequences : Option String := none
deriving DecidableEq, Repr

/-- The committed contents of the database visible to the lifecycle
operations: `transactions`, `users` (only ids matter here),
`user_transactions`, and the autoincrement counter handing out the next
`transaction_id` on insert. -/
structure Store where
  transactions : List Transaction := []
  users : List Nat := []
  user_transactions : List (Nat × Nat) := []
  next_id : Nat := 1
deriving DecidableEq, Repr

/-- Python truthiness of an optional string (`None` and `''` are falsy). -/
def strTruthy : Option String → Bool
  | none => false
  | some s => s ≠ ""

/-- Python truthiness of an optional non-negative integer (`None` and `0`
are falsy). -/
def natTruthy : Option Nat → Bool
  | none => false
  | some n => n ≠ 0

/-- Python truthiness of an optional integer (`None` and `0` are falsy). -/
def intTruthy : Option Int → Bool
  | none => false
  | some n => n ≠ 0

/-- `session.query(Transaction).get(id_)`: the committed row with the given
primary key, if any. -/
def getTransaction? (st : Store) (id_ : Nat) : Option Transaction :=
  st.transactions.find? (fun t => t.transaction_id = id_)

/-- Update every committed row carrying primary key `id_` (ids are unique in
an actual database; the embedding simply rewrites all matches). -/
def updateTransaction (ts : List Transaction) (id_ : Nat)
    (f : Transaction → Transaction) : List Transaction :=
  ts.map (fun t => if t.transaction_id = id_ then f t else t)

/-- `_get_transaction_or_raise_exception` (`transaction_db.py`
lines 246–253). -/
def getOrRaise (st : Store) (id_ : Nat) : Except TDBError Transaction :=
  match getTransaction? st id_ with
  | some t => .ok t
  | none => .error (.transactionDBException "transaction doesn't exist in DB")

/-- Shared shape of the simple guarded setters: look the row up (raising
`TransactionDBException` when absent), apply the field mutation, commit.
The mutation itself cannot fail, so the rollback branch of the source's
`try/except` is unreachable for these operations. -/
def guardedUpdate (st : Store) (id_ : Nat) (f : Transaction → Transaction) :
    Except TDBError Store :=
  match getOrRaise st id_ with
  | .ok _ => .ok { st with transactions := updateTransaction st.transactions id_ f }
  | .error e => .error e

/-- Row mutation performed by `set_processing` (`transaction_db.py`
lines 342–351): overwrite `processing_state`, move to
`TaskState.processing`, overwrite `last_message`, clear the cancelled and
skipped flags, overwrite `task_progress`, and set `start_date` only when
it is unset. -/
def processingRow (new_processing_state : String) (last_message : String)
    (task_progress : Int) (now : Nat) (t : Transaction) : Transaction :=
  let t1 := { t with processing_state := new_processing_state,
                     task_state := TaskState.processing,
                     last_message := some last_message,
                     task_cancelled := 0,
                     task_skipped := 0,
                     task_progress := task_progress }
  if t1.start_date = none then { t1 with start_date := some now } else t1

/-- `set_processing` (`transaction_db.py` lines 316–355). -/
def set_processing (st : Store) (id_ : Nat) (new_processing_state : String)
    (last_message : String) (task_progress : Int := 0) (now : Nat := 0) :
    Except TDBError Store :=
  guardedUpdate st id_
    (processingRow new_processing_state last_message task_progress now)

/-- Row mutation performed by `set_failed` (`transaction_db.py`
lines 363–370). -/
def failedRow (cause : String) (now : Nat) (t : Transaction) : Transaction :=
  let t1 := { t with task_state := TaskState.failed }
  let t2 := if t1.start_date = none then { t1 with start_date := some now }
            else t1
  let t3 := if t2.end_date = none then { t2 with end_date := some now } else t2
  { t3 with error := some cause }

/-- `set_failed` (`transaction_db.py` lines 357–374). -/
def set_failed (st : Store) (id_ : Nat) (cause : String) (now : Nat := 0) :
    Except TDBError Store :=
  guardedUpdate st id_ (failedRow cause now)

/-- Row mutation performed by `set_completed` (`transaction_db.py`
lines 384–394): move to `TaskState.completed`; default `status` to
`"unseen"` when it is `NULL` or `''`; set `start_date`/`end_date` only when
unset; set `error` to `''` iff `clear_error`. -/
def completedRow (clear_error : Bool) (now : Nat) (t : Transaction) :
    Transaction :=
  let t1 := { t with task_state := TaskState.completed }
  let t2 := if t1.status = none ∨ t1.status = some "" then
              { t1 with status := some "unseen" } else t1
  let t3 := if t2.start_date = none then { t2 with start_date := some now }
            else t2
  let t4 := if t3.end_date = none then { t3 with end_date := some now } else t3
  if clear_error then { t4 with error := some "" } else t4

/-- `set_completed` (`transaction_db.py` lines 376–398). -/
def set_completed (st : Store) (id_ : Nat) (clear_error : Bool := true)
    (now : Nat := 0) : Except TDBError Store :=
  guardedUpdate st id_ (completedRow clear_error now)

/-- `set_archived` (`transaction_db.py` lines 444–454). -/
def set_archived (st : Store) (id_ : Nat) : Except TDBError Store :=
  guardedUpdate st id_ (fun t => { t with archived := 1 })

/-- `set_status` (`transaction_db.py` lines 400–412). -/
def set_status (st : Store) (id_ : Nat) (status : String) :
    Except TDBError Store :=
  guardedUpdate st id_ (fun t => { t with status := some status })

/-- The row filter of `peek_queued` (`transaction_db.py` lines 304–309):
`task_state == queued`, `archived == 0`, and — only when the
`processing_state` argument is truthy — `processing_state` equality. -/
def peekPred (processing_state : Option String) (t : Transaction) : Bool :=
  t.task_state = TaskState.queued && t.archived = 0 &&
    (if strTruthy processing_state
     then t.processing_state = processing_state.getD "" else true)

/-- `.order_by(transaction_id.asc()).first()` on a filtered row list: the
row with the least `transaction_id` (ids are unique; on equality the
earlier row is kept). -/
def minByTid : List Transaction → Option Transaction
  | [] => none
  | t :: ts =>
      match minByTid ts with
      | none => some t
      | some u => if t.transaction_id ≤ u.transaction_id then some t else some u

/-- `peek_queued(processing_state='waiting')` with `peek_all=False`
(`transaction_db.py` lines 282–314): the oldest (least-id) committed row
that is queued and not archived, optionally filtered by
`processing_state`; `none` when no row qualifies.  Read-only: it takes and
returns no store. -/
def peek_queued (st : Store)
    (processing_state : Option String := some "waiting") : Option Transaction :=
  minByTid (st.transactions.filter (peekPred processing_state))

/-- `peek_queued` with `peek_all=True`: the full filtered, id-ordered list. -/
def peek_queued_all (st : Store)
    (processing_state : Option String := some "waiting") : List Transaction :=
  (st.transactions.filter (peekPred processing_state)).mergeSort
    (fun a b => a.transaction_id ≤ b.transaction_id)

/-! ## `create_transaction`

`create_transaction` (`transaction_db.py` lines 164–233) commits three
times; the failure the claims care about (owner id not resolving to a user)
strikes *after* the first commit has persisted the new row.  The except
branch then calls `session.rollback()` followed by `session.delete(t)` —
but never commits that delete before re-raising, so the embedding keeps the
committed store and the merely-registered delete apart.

Two collaborator pieces are abstracted as function parameters rather than
translated, because their code is not under `src/`:
* `inject` stands for the best-effort `t_id` JSON injection of lines
  215–221 (`json.loads` / set `t_id` / `json.dumps`, parse failures
  swallowed); per spec §6 the blob is content-opaque to the store, so only
  its type `String → Nat → String` matters here.
* `idx_seq` stands for `index.set_index_sequences(t)` of line 223
  (`mediaire_toolbox/transaction_db/index.py` is not under `src/`; spec §1
  scopes study-metadata bookkeeping out as a plain collaborator).
-/

/-- Result of one `create_transaction` call: the returned id or the raised
error, the committed store after the call, and — when the except branch
ran — the id whose deletion was registered via `session.delete` but never
committed before the exception propagated. -/
structure CreateOutcome where
  result : Except TDBError Nat
  store : Store
  pending_delete : Option Nat := none
deriving Repr

/-- Success tail of `create_transaction` (lines 212–225): commit the
association row, apply the best-effort `t_id` injection to a truthy
`last_message`, run the sequence indexing, commit, and return the id. -/
def createFinish (inject : String → Nat → String)
    (idx_seq : Transaction → Transaction) (st : Store) (t : Transaction)
    (tid : Nat) : CreateOutcome :=
  let t := if strTruthy t.last_message
           then { t with last_message := some (inject (t.last_message.getD "") tid) }
           else t
  let t := idx_seq t
  { result := .ok tid,
    store := { st with transactions := updateTransaction st.transactions tid (fun _ => t) },
    pending_delete := none }

/-- `create_transaction` (`transaction_db.py` lines 164–233).  Steps in
source order: force `task_state` to queued (or failed when the `task_state`
argument is the string `'failed'`), overwrite `processing_state`, set
`creation_date` only when absent, copy the truthy optional arguments,
insert and commit (assigning the id), then — when `user_id` is truthy —
look the user up and raise when absent; otherwise record the association,
commit, inject the id into a truthy payload, index sequences, commit, and
return the id. -/
def create_transaction (inject : String → Nat → String)
    (idx_seq : Transaction → Transaction) (st : Store) (now : Nat)
    (t : Transaction) (user_id : Option Nat := none)
    (product_id : Option Nat := none) (analysis_type : Option String := none)
    (qa_score : Option Int := none) (processing_state : String := "waiting")
    (task_state : String := "queued") : CreateOutcome :=
  let t1 : Transaction :=
    { t with task_state := if task_state = "failed" then TaskState.failed
                           else TaskState.queued,
             processing_state := processing_state,
             creation_date := if t.creation_date = none then some now
                              else t.creation_date,
             product_id := if natTruthy product_id then product_id
                           else t.product_id,
             analysis_type := if strTruthy analysis_type then analysis_type
                              else t.analysis_type,
             qa_score := if intTruthy qa_score then qa_score else t.qa_score }
  let tid := st.next_id
  let t2 := { t1 with transaction_id := tid }
  let st1 : Store := { st with transactions := st.transactions ++ [t2],
                               next_id := st.next_id + 1 }
  if natTruthy user_id then
    let uid := user_id.getD 0
    if uid ∈ st1.users then
      createFinish inject idx_seq
        { st1 with user_transactions := st1.user_transactions ++ [(uid, tid)] }
        t2 tid
    else
      { result := .error (.transactionDBException "The provided user doesn't exist"),
        store := st1,
        pending_delete := if tid ≠ 0 then some tid else none }
  else
    createFinish inject idx_seq st1 t2 tid

/-! ## Claims about the migration statements (C1) -/

lemma versionRange_1_5 : versionRange 1 5 = [2, 3, 4, 5] := rfl

/-- Closed form of the row-level effect of migrating from version 1 to 5. -/
lemma migrateRow_1_5 (r : MigRow) :
    migrateRow 1 5 r =
      { processing_state := r.processing_state,
        task_progress := some
          (if r.processing_state = "send_to_pacs" then 100
           else if r.processing_state = "report" then 90
           else if r.processing_state = "volumetry_assessment" then 80
           else if r.processing_state = "spm_volumetry" then 10
           else if r.processing_state = "spm_lesion" then 10 else 0),
        task_skipped := some 0,
        task_cancelled := some 0,
        status := some (if r.processing_state = "send_to_pacs"
                        then "sent_to_pacs" else "unseen"),
        institution := none,
        sequences := none } := by
  obtain ⟨ps, tp, sk, ca, stt, inst, seq⟩ := r
  by_cases h1 : ps = "spm_lesion"
  · subst h1; rfl
  by_cases h2 : ps = "spm_volumetry"
  · subst h2; rfl
  by_cases h3 : ps = "volumetry_assessment"
  · subst h3; rfl
  by_cases h4 : ps = "report"
  · subst h4; rfl
  by_cases h5 : ps = "send_to_pacs"
  · subst h5; rfl
  simp [migrateRow, versionRange_1_5, MIGRATIONS, applyMigStmt, h1, h2, h3, h4, h5]

/-- C1: migrating a store from schema version 1 to version 5 gives a
pre-existing row with `processing_state = 'report'` a `task_progress` of 90;
gives a row with `processing_state = 'send_to_pacs'` `task_progress` 100 and
`status = 'sent_to_pacs'`; gives every row with any other `processing_state`
`status = 'unseen'`; and the migrated schema carries default 0 for
`task_progress`, so new rows get `task_progress = 0`. -/
theorem migration_1_to_5_backfills_progress_and_status (r : MigRow) :
    ((r.processing_state = "report" →
        (migrateRow 1 5 r).task_progress = some 90) ∧
     (r.processing_state = "send_to_pacs" →
        (migrateRow 1 5 r).task_progress = some 100 ∧
        (migrateRow 1 5 r).status = some "sent_to_pacs") ∧
     (r.processing_state ≠ "send_to_pacs" →
        (migrateRow 1 5 r).status = some "unseen")) ∧
    (migrateSchema 1 5 {}).task_progress = some (some 0) := by
  rw [migrateRow_1_5 r]
  refine ⟨⟨?_, ?_, ?_⟩, by rfl⟩ <;> intro h <;> simp [h]

/-- Witness for C1 at three concrete rows. -/
theorem migration_1_to_5_backfills_progress_and_status_witness :
    (migrateRow 1 5 { processing_state := "report" }).task_progress = some 90 ∧
    (migrateRow 1 5 { processing_state := "send_to_pacs" }).status
      = some "sent_to_pacs" ∧
    (migrateRow 1 5 { processing_state := "report" }).status = some "unseen" :=
  ⟨(migration_1_to_5_backfills_progress_and_status
      { processing_state := "report" }).1.1 rfl,
   ((migration_1_to_5_backfills_progress_and_status
      { processing_state := "send_to_pacs" }).1.2.1 rfl).2,
   (migration_1_to_5_backfills_progress_and_status
      { processing_state := "report" }).1.2.2 (by decide)⟩

/-! ## Claims about the migration engine (C2–C4) -/

/-- Whether every statement of a batch succeeds. -/
def allOk (cs : List Bool) : Bool := cs.all (fun c => c)

/-- The schema version an event mentions, if any. -/
def evVersion? : MigEv → Option Nat
  | .execCmd v _ => some v
  | .setVersion v => some v
  | .runScript v _ => some v
  | _ => none

/-- `runCmds` on an all-successful batch: every statement executes, each
extending the trace and the uncommitted work of the open transaction. -/
lemma runCmds_allOk (v : Nat) (cs : List Bool) (hc : allOk cs = true) :
    ∀ (idx : Nat) (st : EngineState),
      ∃ es ps, (∀ e ∈ es, ∃ i, e = MigEv.execCmd v i) ∧ (∀ p ∈ ps, p.1 = v) ∧
        runCmds v idx cs st =
          .ok { st with pending := st.pending ++ ps, trace := st.trace ++ es } := by
  induction cs with
  | nil =>
      intro idx st
      exact ⟨[], [], by simp, by simp, by simp [runCmds]⟩
  | cons c rest ih =>
      intro idx st
      have hc1 : c = true := by
        have := hc
        simp [allOk] at this
        exact this.1
      have hc2 : allOk rest = true := by
        have := hc
        simp [allOk] at this
        simpa [allOk] using this.2
      subst hc1
      obtain ⟨es, ps, hes, hps, hrun⟩ := ih hc2 (idx + 1)
        { st with pending := st.pending ++ [(v, idx)],
                  trace := st.trace ++ [MigEv.execCmd v idx] }
      refine ⟨MigEv.execCmd v idx :: es, (v, idx) :: ps, ?_, ?_, ?_⟩
      · intro e he
        rcases List.mem_cons.mp he with h | h
        · exact ⟨idx, h⟩
        · exact hes e h
      · intro p hp
        rcases List.mem_cons.mp hp with h | h
        · simp [h]
        · exact hps p h
      · simpa [runCmds, List.append_assoc] using hrun

/-- `runCmds` on a batch with a failing statement: the first failure raises,
with only the statements before it executed (and uncommitted). -/
lemma runCmds_fail (v : Nat) (cs : List Bool) (hc : allOk cs = false) :
    ∀ (idx : Nat) (st : EngineState),
      ∃ es ps, (∀ e ∈ es, ∃ i, e = MigEv.execCmd v i) ∧ (∀ p ∈ ps, p.1 = v) ∧
        runCmds v idx cs st =
          .error { st with pending := st.pending ++ ps, trace := st.trace ++ es } := by
  induction cs with
  | nil => simp [allOk] at hc
  | cons c rest ih =>
      intro idx st
      cases c with
      | false =>
          refine ⟨[], [], by simp, by simp, ?_⟩
          simp [runCmds]
      | true =>
          have hc2 : allOk rest = false := by simpa [allOk] using hc
          obtain ⟨es, ps, hes, hps, hrun⟩ := ih hc2 (idx + 1)
            { st with pending := st.pending ++ [(v, idx)],
                      trace := st.trace ++ [MigEv.execCmd v idx] }
          refine ⟨MigEv.execCmd v idx :: es, (v, idx) :: ps, ?_, ?_, ?_⟩
          · intro e he
            rcases List.mem_cons.mp he with h | h
            · exact ⟨idx, h⟩
            · exact hes e h
          · intro p hp
            rcases List.mem_cons.mp hp with h | h
            · simp [h]
            · exact hps p h
          · simpa [runCmds, List.append_assoc] using hrun

/-- A DDL step whose batch fully succeeds: the statements execute, the
session's version attribute is set, and one single commit persists the
statements and the version advance together. -/
lemma migrateStep_allOk (cmds : Nat → List Bool) (v : Nat) (st : EngineState)
    (h : allOk (cmds v) = true) :
    ∃ es ps, (∀ e ∈ es, ∃ i, e = MigEv.execCmd v i) ∧ (∀ p ∈ ps, p.1 = v) ∧
      migrateStep cmds v st = .ok
        { persisted_version := v,
          session_version := v,
          committed := st.committed ++ (st.pending ++ ps),
          pending := [],
          trace := st.trace ++ es ++ [MigEv.setVersion v, MigEv.commit] } := by
  obtain ⟨es, ps, hes, hps, hrun⟩ := runCmds_allOk v (cmds v) h 0 st
  refine ⟨es, ps, hes, hps, ?_⟩
  simp [migrateStep, hrun, commitSt, List.append_assoc]

/-- A DDL step whose batch contains a failing statement: the step raises,
the open transaction is rolled back (nothing of the batch is committed, the
session's version attribute reverts to the persisted one) and the session
is closed. -/
lemma migrateStep_fail (cmds : Nat → List Bool) (v : Nat) (st : EngineState)
    (h : allOk (cmds v) = false) :
    ∃ es, (∀ e ∈ es, ∃ i, e = MigEv.execCmd v i) ∧
      migrateStep cmds v st = .error
        { persisted_version := st.persisted_version,
          session_version := st.persisted_version,
          committed := st.committed,
          pending := [],
          trace := st.trace ++ es ++ [MigEv.rollback, MigEv.closeSession] } := by
  obtain ⟨es, ps, hes, _hps, hrun⟩ := runCmds_fail v (cmds v) h 0 st
  refine ⟨es, hes, ?_⟩
  simp [migrateStep, hrun, rollbackSt, closeSt, List.append_assoc]

/-- The DDL pass processes version lists left to right. -/
lemma migrateDDL_append (cmds : Nat → List Bool) (vs1 vs2 : List Nat)
    (st : EngineState) :
    migrateDDL cmds (vs1 ++ vs2) st =
      match migrateDDL cmds vs1 st with
      | .ok st' => migrateDDL cmds vs2 st'
      | .error st' => .error st' := by
  induction vs1 generalizing st with
  | nil => simp [migrateDDL]
  | cons v rest ih =>
      simp only [List.cons_append, migrateDDL]
      cases migrateStep cmds v st with
      | ok st' => exact ih st'
      | error st' => rfl

/-- The DDL pass over versions whose batches all succeed: it succeeds, the
persisted version ends at the last version of the list, no transaction is
left open, and the trace grows only by events of the processed versions
(never a backfill event). -/
lemma migrateDDL_allOk (cmds : Nat → List Bool) (vs : List Nat)
    (h : ∀ w ∈ vs, allOk (cmds w) = true) :
    ∀ st : EngineState, st.pending = [] →
      ∃ st', migrateDDL cmds vs st = .ok st' ∧
        st'.persisted_version = vs.getLastD st.persisted_version ∧
        st'.pending = [] ∧
        ∃ es, st'.trace = st.trace ++ es ∧
          (∀ e ∈ es, ∀ w, evVersion? e = some w → w ∈ vs) ∧
          (∀ v' i, MigEv.runScript v' i ∉ es) := by
  induction vs with
  | nil =>
      intro st hpend
      exact ⟨st, by simp [migrateDDL], by simp, hpend, [], by simp, by simp, by simp⟩
  | cons v rest ih =>
      intro st hpend
      obtain ⟨es0, ps0, hes0, _hps0, hstep⟩ :=
        migrateStep_allOk cmds v st (h v (by simp))
      obtain ⟨st', hrun, hver, hpend', es1, htr, hes1, hns1⟩ :=
        ih (fun w hw => h w (by simp [hw]))
          { persisted_version := v, session_version := v,
            committed := st.committed ++ (st.pending ++ ps0), pending := [],
            trace := st.trace ++ es0 ++ [MigEv.setVersion v, MigEv.commit] }
          rfl
      refine ⟨st', ?_, ?_, hpend', es0 ++ [MigEv.setVersion v, MigEv.commit] ++ es1,
        ?_, ?_, ?_⟩
      · simp only [migrateDDL, hstep]
        exact hrun
      · rw [hver]
        exact (List.getLastD_cons _ _ _).symm
      · rw [htr]
        simp [List.append_assoc]
      · intro e he w hw
        simp only [List.mem_append] at he
        rcases he with (he | he) | he
        · obtain ⟨i, rfl⟩ := hes0 e he
          simp only [evVersion?, Option.some.injEq] at hw
          simp [hw]
        · rcases List.mem_pair.mp he with rfl | rfl
          · simp only [evVersion?, Option.some.injEq] at hw
            simp [hw]
          · simp [evVersion?] at hw
        · exact List.mem_cons_of_mem v (hes1 e he w hw)
      · intro v' i hmem
        simp only [List.mem_append] at hmem
        rcases hmem with (hmem | hmem) | hmem
        · obtain ⟨j, hj⟩ := hes0 _ hmem
          exact absurd hj (by simp)
        · rcases List.mem_pair.mp hmem with h' | h' <;> exact absurd h' (by simp)
        · exact hns1 v' i hmem

/-- Last element of a `range'` with a fallback. -/
lemma getLastD_range' (s n d : Nat) :
    (List.range' s n).getLastD d = if n = 0 then d else s + n - 1 := by
  induction n generalizing s d with
  | zero => simp
  | succ n ih =>
      rw [List.range'_succ, List.getLastD_cons, ih]
      rcases Nat.eq_zero_or_pos n with h | h
      · subst h; simp
      · rw [if_neg (Nat.pos_iff_ne_zero.mp h), if_neg (Nat.succ_ne_zero n)]
        omega

/-- Splitting the migration range at an intermediate version. -/
lemma versionRange_split (fromV v target : Nat) (h1 : fromV < v)
    (h2 : v ≤ target) :
    versionRange fromV target =
      versionRange fromV (v - 1) ++ v :: versionRange v target := by
  have hrange : List.range' v (target - v + 1) =
      v :: List.range' (v + 1) (target - v) := List.range'_succ v (target - v) 1
  have key := List.range'_append_1 (fromV + 1) (v - 1 - fromV) (target - v + 1)
  have hs : fromV + 1 + (v - 1 - fromV) = v := by omega
  rw [hs, hrange] at key
  unfold versionRange
  rw [key]
  congr 1
  omega

/-- The DDL pass on a range whose prefix succeeds and whose step at `v`
fails: the failure propagates, the persisted version stays at the last
version of the successful prefix, nothing stays uncommitted, and no event
mentions a version beyond `v` (later versions are never attempted). -/
lemma migrateDDL_prefix_fail (cmds : Nat → List Bool) (vs1 : List Nat)
    (v : Nat) (vs2 : List Nat) (st : EngineState) (hpend : st.pending = [])
    (h1 : ∀ w ∈ vs1, allOk (cmds w) = true) (h2 : allOk (cmds v) = false) :
    ∃ st', migrateDDL cmds (vs1 ++ v :: vs2) st = .error st' ∧
      st'.persisted_version = vs1.getLastD st.persisted_version ∧
      st'.pending = [] ∧
      ∃ es, st'.trace = st.trace ++ es ∧
        (∀ e ∈ es, ∀ w, evVersion? e = some w → w ∈ vs1 ++ [v]) ∧
        (∀ v' i, MigEv.runScript v' i ∉ es) := by
  obtain ⟨st1, hrun1, hver1, hpend1, es1, htr1, hes1, hns1⟩ :=
    migrateDDL_allOk cmds vs1 h1 st hpend
  obtain ⟨es2, hes2, hstep⟩ := migrateStep_fail cmds v st1 h2
  refine ⟨{ persisted_version := st1.persisted_version,
            session_version := st1.persisted_version,
            committed := st1.committed, pending := [],
            trace := st.trace ++
              (es1 ++ (es2 ++ [MigEv.rollback, MigEv.closeSession])) },
    ?_, hver1, rfl,
    es1 ++ (es2 ++ [MigEv.rollback, MigEv.closeSession]), rfl, ?_, ?_⟩
  · rw [migrateDDL_append, hrun1]
    simp only [migrateDDL, hstep]
    rw [htr1]
    simp [List.append_assoc]
  · intro e he w hw
    simp only [List.mem_append] at he
    rcases he with he | (he | he)
    · exact List.mem_append_left _ (hes1 e he w hw)
    · obtain ⟨i, rfl⟩ := hes2 e he
      simp only [evVersion?, Option.some.injEq] at hw
      simp [hw]
    · rcases List.mem_pair.mp he with rfl | rfl <;> simp [evVersion?] at hw
  · intro v' i hmem
    simp only [List.mem_append] at hmem
    rcases hmem with hmem | (hmem | hmem)
    · exact hns1 v' i hmem
    · obtain ⟨j, hj⟩ := hes2 _ hmem
      exact absurd hj (by simp)
    · rcases List.mem_pair.mp hmem with h' | h' <;> exact absurd h' (by simp)

/-- C4: if a statement of the migration step to version `v` fails (every
earlier step in the range succeeding), the whole migration — DDL pass and
all — propagates the failure, the step's batch is rolled back with nothing
left uncommitted, the persisted schema version stays at `v - 1` (the last
successfully advanced version, not the failed target), no event ever
mentions a version later than `v`, and no backfill script is ever run. -/
theorem migration_step_failure_halts_at_last_committed_version
    (cmds scripts : Nat → List Bool) (fromV target v : Nat)
    (hlo : fromV < v) (hhi : v ≤ target)
    (hok : ∀ w, fromV < w → w < v → allOk (cmds w) = true)
    (hfail : allOk (cmds v) = false) :
    ∃ st', migrate cmds scripts fromV target (initEngine fromV) = .error st' ∧
      st'.persisted_version = v - 1 ∧
      st'.pending = [] ∧
      (∀ e ∈ st'.trace, ∀ w, evVersion? e = some w → w ≤ v) ∧
      (∀ v' i, MigEv.runScript v' i ∉ st'.trace) := by
  have h1 : ∀ w ∈ versionRange fromV (v - 1), allOk (cmds w) = true := by
    intro w hw
    simp only [versionRange, List.mem_range'_1] at hw
    exact hok w (by omega) (by omega)
  obtain ⟨st', hrun, hver, hpend, es, htr, hes, hns⟩ :=
    migrateDDL_prefix_fail cmds (versionRange fromV (v - 1)) v
      (versionRange v target) (initEngine fromV) rfl h1 hfail
  have hddl : migrateDDL cmds (versionRange fromV target) (initEngine fromV)
      = .error st' := by
    rw [versionRange_split fromV v target hlo hhi]
    exact hrun
  have htrace : st'.trace = es := by
    rw [htr]
    simp [initEngine]
  refine ⟨st', ?_, ?_, hpend, ?_, ?_⟩
  · simp only [migrate, hddl]
  · rw [hver]
    show (versionRange fromV (v - 1)).getLastD fromV = v - 1
    unfold versionRange
    rw [getLastD_range']
    split <;> omega
  · intro e he w hw
    rw [htrace] at he
    rcases List.mem_append.mp (hes e he w hw) with h' | h'
    · simp only [versionRange, List.mem_range'_1] at h'
      omega
    · simp only [List.mem_singleton] at h'
      omega
  · intro v' i hmem
    rw [htrace] at hmem
    exact hns v' i hmem

/-- DDL statement success profile with a single failing statement at
version 4 and the real `MIGRATIONS` batches elsewhere. -/
def failCmds : Nat → List Bool := fun v => if v = 4 then [false] else migCmdsOk v

/-- Witness for C4: migrating 1 → 5 with the version-4 batch failing stops
with the persisted version at 3 and touches no later version. -/
theorem migration_step_failure_halts_witness :
    ∃ st', migrate failCmds (fun _ => []) 1 5 (initEngine 1) = .error st' ∧
      st'.persisted_version = 4 - 1 ∧
      st'.pending = [] ∧
      (∀ e ∈ st'.trace, ∀ w, evVersion? e = some w → w ≤ 4) ∧
      (∀ v' i, MigEv.runScript v' i ∉ st'.trace) :=
  migration_step_failure_halts_at_last_committed_version failCmds (fun _ => [])
    1 5 4 (by decide) (by decide)
    (by intro w h1 h2; interval_cases w <;> decide) (by decide)

/-- The two-transaction discipline C3 asserts for the step to version `v`:
some `commit` event lies strictly between an executed statement of the step
and the advance of the version counter (i.e. the statements' transaction
commits first, and a separate, later transaction advances the counter). -/
def commitSeparatesStep (tr : List MigEv) (v : Nat) : Bool :=
  (List.range tr.length).any fun i =>
    (List.range tr.length).any fun k =>
      (List.range tr.length).any fun j =>
        decide (i < k) && decide (k < j) &&
        (match tr[i]? with
         | some (MigEv.execCmd w _) => decide (w = v)
         | _ => false) &&
        (tr[k]? == some MigEv.commit) &&
        (tr[j]? == some (MigEv.setVersion v))

/-- C3 counterexample: running the real version-2 statement batch from
version 1 (every statement succeeding), the trace is the six statement
executions, then the in-session version advance, then one single commit:
no commit separates the statements from the version advance, and the step
commits exactly once, not once per transaction of a pair. -/
theorem ddl_and_version_advance_not_in_separate_transactions :
    (outState (migrateDDL migCmdsOk (versionRange 1 2) (initEngine 1))).trace
      = [MigEv.execCmd 2 0, MigEv.execCmd 2 1, MigEv.execCmd 2 2,
         MigEv.execCmd 2 3, MigEv.execCmd 2 4, MigEv.execCmd 2 5,
         MigEv.setVersion 2, MigEv.commit] ∧
    commitSeparatesStep
      (outState (migrateDDL migCmdsOk (versionRange 1 2) (initEngine 1))).trace 2
      = false ∧
    (outState (migrateDDL migCmdsOk (versionRange 1 2)
        (initEngine 1))).trace.count MigEv.commit = 1 := by
  decide

/-- C3 (amended): for every migration step whose batch succeeds, the step's
schema-change statements and the advance of the persisted SchemaVersion
counter are committed atomically but TOGETHER, in one shared transaction:
the counter assignment follows the statements inside the same open
transaction, and a single commit — the step's only one — persists both at
once. -/
theorem ddl_and_version_advance_commit_in_one_transaction
    (cmds : Nat → List Bool) (v : Nat) (st : EngineState)
    (h : allOk (cmds v) = true) :
    ∃ st' es, migrateStep cmds v st = .ok st' ∧
      st'.trace = st.trace ++ (es ++ [MigEv.setVersion v, MigEv.commit]) ∧
      (∀ e ∈ es, ∃ i, e = MigEv.execCmd v i) ∧
      (es ++ [MigEv.setVersion v, MigEv.commit]).count MigEv.commit = 1 ∧
      st'.persisted_version = v ∧
      st'.pending = [] := by
  obtain ⟨es, ps, hes, _hps, hstep⟩ := migrateStep_allOk cmds v st h
  have hnc : MigEv.commit ∉ es := by
    intro hmem
    obtain ⟨i, hi⟩ := hes _ hmem
    exact absurd hi (by simp)
  refine ⟨_, es, hstep, by simp [List.append_assoc], hes, ?_, rfl, rfl⟩
  rw [List.count_append, List.count_eq_zero.mpr hnc]
  simp [List.count_cons]

/-- Witness for the amended C3 at the real version-2 batch. -/
theorem ddl_and_version_advance_commit_in_one_transaction_witness :
    ∃ st' es, migrateStep migCmdsOk 2 (initEngine 1) = .ok st' ∧
      st'.trace = (initEngine 1).trace ++
        (es ++ [MigEv.setVersion 2, MigEv.commit]) ∧
      (∀ e ∈ es, ∃ i, e = MigEv.execCmd 2 i) ∧
      (es ++ [MigEv.setVersion 2, MigEv.commit]).count MigEv.commit = 1 ∧
      st'.persisted_version = 2 ∧
      st'.pending = [] :=
  ddl_and_version_advance_commit_in_one_transaction migCmdsOk 2 (initEngine 1)
    (by decide)

/-- A backfill-script registry declaring exactly one script, for version 2
(standing for `migrations.MIGRATIONS_SCRIPTS`, whose concrete content is
not under `src/`; the engine receives it as configuration). -/
def exScripts : Nat → List Bool := fun v => if v = 2 then [true] else []

/-- C2: evaluating the full migration from version 1 to target 5 with every
DDL statement of the real `MIGRATIONS` succeeding and a single backfill
script registered for version 2: the run succeeds and the version counter
ends at 5, yet that script is executed four times — the outer second-pass
loop re-runs `migrate_scripts` over the whole range once per version of the
range — not exactly once as the claim states. -/
theorem backfill_script_runs_once_per_outer_iteration :
    isErr (migrate migCmdsOk exScripts 1 5 (initEngine 1)) = false ∧
    (outState (migrate migCmdsOk exScripts 1 5 (initEngine 1))).trace.count
      (MigEv.runScript 2 0) = 4 ∧
    (outState (migrate migCmdsOk exScripts 1 5
        (initEngine 1))).persisted_version = 5 := by
  decide

/-! ## Helper lemmas about the lifecycle store -/

/-- Looking the row up again after `updateTransaction` finds the mutated
row, provided the mutation keeps the primary key. -/
lemma find?_updateTransaction (ts : List Transaction) (id_ : Nat)
    (f : Transaction → Transaction)
    (hf : ∀ u, (f u).transaction_id = u.transaction_id) (t : Transaction)
    (h : ts.find? (fun u => u.transaction_id = id_) = some t) :
    (updateTransaction ts id_ f).find? (fun u => u.transaction_id = id_)
      = some (f t) := by
  induction ts with
  | nil => simp at h
  | cons u rest ih =>
      by_cases hu : u.transaction_id = id_
      · have ht : u = t := by simpa [List.find?, hu] using h
        subst ht
        simp [updateTransaction, List.find?, hu, hf]
      · have h' : rest.find? (fun w => w.transaction_id = id_) = some t := by
          simpa [List.find?, hu] using h
        simpa [updateTransaction, List.find?, hu] using ih h'

/-- Rows with a different primary key survive `updateTransaction`
unchanged. -/
lemma mem_updateTransaction_of_ne (ts : List Transaction) (id_ : Nat)
    (f : Transaction → Transaction) (u : Transaction) (hu : u ∈ ts)
    (hne : u.transaction_id ≠ id_) : u ∈ updateTransaction ts id_ f := by
  have : (if u.transaction_id = id_ then f u else u) ∈ updateTransaction ts id_ f :=
    List.mem_map_of_mem _ hu
  simpa [hne] using this

/-- Every member of an updated list is either an untouched row with a
different key or the image of a row with the key. -/
lemma mem_updateTransaction (ts : List Transaction) (id_ : Nat)
    (f : Transaction → Transaction) (u : Transaction)
    (hu : u ∈ updateTransaction ts id_ f) :
    (∃ w ∈ ts, w.transaction_id ≠ id_ ∧ u = w) ∨ ∃ w ∈ ts, w.transaction_id = id_ ∧ u = f w := by
  simp only [updateTransaction, List.mem_map] at hu
  obtain ⟨w, hw, heq⟩ := hu
  by_cases hid : w.transaction_id = id_
  · right
    exact ⟨w, hw, hid, by simpa [hid] using heq.symm⟩
  · left
    exact ⟨w, hw, hid, by simpa [hid] using heq.symm⟩

/-- `minByTid` is `none` only on the empty list. -/
lemma minByTid_none : ∀ {ts : List Transaction},
    minByTid ts = none → ts = [] := by
  intro ts h
  cases ts with
  | nil => rfl
  | cons u rest =>
      exfalso
      simp only [minByTid] at h
      cases hrest : minByTid rest with
      | none => rw [hrest] at h; simp at h
      | some w =>
          rw [hrest] at h
          by_cases hle : u.transaction_id ≤ w.transaction_id <;>
            simp [hle] at h

/-- `minByTid` returns a member of the list. -/
lemma minByTid_mem : ∀ {ts : List Transaction} {t : Transaction},
    minByTid ts = some t → t ∈ ts := by
  intro ts
  induction ts with
  | nil => intro t h; simp [minByTid] at h
  | cons u rest ih =>
      intro t h
      cases hrest : minByTid rest with
      | none =>
          simp only [minByTid, hrest, Option.some.injEq] at h
          subst h
          exact List.mem_cons_self u rest
      | some w =>
          simp only [minByTid, hrest] at h
          by_cases hle : u.transaction_id ≤ w.transaction_id
          · rw [if_pos hle] at h
            cases h
            exact List.mem_cons_self u rest
          · rw [if_neg hle] at h
            cases h
            exact List.mem_cons_of_mem u (ih hrest)

/-- `minByTid` returns a least id. -/
lemma minByTid_min : ∀ {ts : List Transaction} {t : Transaction},
    minByTid ts = some t → ∀ u ∈ ts, t.transaction_id ≤ u.transaction_id := by
  intro ts
  induction ts with
  | nil => intro t h; simp [minByTid] at h
  | cons u rest ih =>
      intro t h w hw
      cases hrest : minByTid rest with
      | none =>
          have hnil : rest = [] := minByTid_none hrest
          subst hnil
          simp only [minByTid, Option.some.injEq] at h
          subst h
          rcases List.mem_cons.mp hw with rfl | hw'
          · exact Nat.le_refl _
          · simp at hw'
      | some v =>
          simp only [minByTid, hrest] at h
          by_cases hle : u.transaction_id ≤ v.transaction_id
          · rw [if_pos hle] at h
            cases h
            rcases List.mem_cons.mp hw with rfl | hw'
            · exact Nat.le_refl _
            · exact Nat.le_trans hle (ih hrest w hw')
          · rw [if_neg hle] at h
            cases h
            rcases List.mem_cons.mp hw with rfl | hw'
            · omega
            · exact ih hrest w hw'

/-- Unfolding the `peek_queued` row filter. -/
lemma peekPred_iff (ps : Option String) (u : Transaction) :
    peekPred ps u = true ↔
      (u.task_state = TaskState.queued ∧ u.archived = 0 ∧
        (strTruthy ps = true → u.processing_state = ps.getD "")) := by
  by_cases h : strTruthy ps = true <;>
    simp [peekPred, h, and_assoc]

/-- A returned peek row is a member, passes the filter, and has the least
id among filtered members. -/
lemma peek_queued_sound (st : Store) (ps : Option String) (u : Transaction)
    (h : peek_queued st ps = some u) :
    u ∈ st.transactions ∧ peekPred ps u = true ∧
      ∀ w ∈ st.transactions, peekPred ps w = true →
        u.transaction_id ≤ w.transaction_id := by
  have hm := minByTid_mem h
  refine ⟨(List.mem_filter.mp hm).1, (List.mem_filter.mp hm).2, ?_⟩
  intro w hw hpw
  exact minByTid_min h w (List.mem_filter.mpr ⟨hw, hpw⟩)

/-- A `none` peek means no row passes the filter. -/
lemma peek_queued_none (st : Store) (ps : Option String)
    (h : peek_queued st ps = none) :
    ∀ w ∈ st.transactions, peekPred ps w = false := by
  intro w hw
  have hnil := minByTid_none h
  by_contra hne
  have : w ∈ st.transactions.filter (peekPred ps) :=
    List.mem_filter.mpr ⟨hw, by revert hne; cases peekPred ps w <;> simp⟩
  rw [hnil] at this
  simp at this

/-! ## Claims about the lifecycle operations (C5–C10) -/

/-- C8: `peek_queued` returns a row with the lowest id among the rows whose
`task_state` is queued and whose `archived` flag is 0 (further restricted
to the given `processing_state` when the filter argument is truthy),
returns `none` exactly when no such row exists, and — being a pure function
of the store — mutates nothing, so repeated calls with no intervening
mutation agree. -/
theorem peek_returns_lowest_queued_unarchived (st : Store) (ps : Option String) :
    (∀ u, peek_queued st ps = some u →
      u ∈ st.transactions ∧ u.task_state = TaskState.queued ∧ u.archived = 0 ∧
        (strTruthy ps = true → u.processing_state = ps.getD "") ∧
        ∀ w ∈ st.transactions,
          w.task_state = TaskState.queued → w.archived = 0 →
          (strTruthy ps = true → w.processing_state = ps.getD "") →
          u.transaction_id ≤ w.transaction_id) ∧
    (peek_queued st ps = none →
      ∀ w ∈ st.transactions,
        ¬(w.task_state = TaskState.queued ∧ w.archived = 0 ∧
          (strTruthy ps = true → w.processing_state = ps.getD ""))) ∧
    peek_queued st ps = peek_queued st ps := by
  refine ⟨?_, ?_, rfl⟩
  · intro u hu
    obtain ⟨hmem, hpred, hmin⟩ := peek_queued_sound st ps u hu
    obtain ⟨hq, ha, hps⟩ := (peekPred_iff ps u).mp hpred
    exact ⟨hmem, hq, ha, hps, fun w hw h1 h2 h3 =>
      hmin w hw ((peekPred_iff ps w).mpr ⟨h1, h2, h3⟩)⟩
  · intro hnone w hw hcontra
    have := peek_queued_none st ps hnone w hw
    rw [(peekPred_iff ps w).mpr hcontra] at this
    exact Bool.true_eq_false ▸ this

/-- Three queued, unarchived `waiting` rows with ids 1, 2, 3. -/
def threeQueued : Store :=
  { transactions :=
      [{ transaction_id := 1, processing_state := "waiting" },
       { transaction_id := 2, processing_state := "waiting" },
       { transaction_id := 3, processing_state := "waiting" }],
    next_id := 4 }

/-- Witness for C8: on three queued transactions with ids 1, 2, 3, `peek`
returns the row with id 1, which is minimal. -/
theorem peek_returns_lowest_queued_unarchived_witness :
    peek_queued threeQueued (some "waiting")
        = some { transaction_id := 1, processing_state := "waiting" } ∧
    ({ transaction_id := 1, processing_state := "waiting" } : Transaction)
        ∈ threeQueued.transactions ∧
    ∀ w ∈ threeQueued.transactions,
      w.task_state = TaskState.queued → w.archived = 0 →
      (strTruthy (some "waiting") = true →
        w.processing_state = (some "waiting").getD "") →
      ({ transaction_id := 1, processing_state := "waiting" }
        : Transaction).transaction_id ≤ w.transaction_id :=
  ⟨by decide,
   ((peek_returns_lowest_queued_unarchived threeQueued (some "waiting")).1
      _ (by decide)).1,
   fun w hw h1 h2 h3 =>
     ((peek_returns_lowest_queued_unarchived threeQueued (some "waiting")).1
        _ (by decide)).2.2.2.2 w hw h1 h2 h3⟩

/-- A store whose only rows are queued, unarchived, but in stage
`"report"`, not `"waiting"`. -/
def reportOnlyStore : Store :=
  { transactions :=
      [{ transaction_id := 1, processing_state := "report" },
       { transaction_id := 2, processing_state := "report" }],
    next_id := 3 }

/-- C10: the `processing_state` filter of `peek_queued` defaults to
`'waiting'` — a call without the argument equals a call with `'waiting'`,
and on a store holding only queued, unarchived rows in another stage it
returns `none`; the stage filter is disabled only by explicitly passing a
falsy filter value (`None` or `''`), which makes those rows visible. -/
theorem peek_default_filter_is_waiting :
    (∀ st : Store, peek_queued st = peek_queued st (some "waiting")) ∧
    peek_queued reportOnlyStore = none ∧
    peek_queued reportOnlyStore none
      = some { transaction_id := 1, processing_state := "report" } ∧
    peek_queued reportOnlyStore (some "")
      = some { transaction_id := 1, processing_state := "report" } := by
  exact ⟨fun st => rfl, by decide, by decide, by decide⟩

/-- C9: `set_archived` on an existing id sets the `archived` flag and
changes nothing else of the row (in particular `task_state` stays as it
was, e.g. queued), leaves all other rows in place, and thereby removes the
row from every subsequent `peek_queued` result, whatever the stage
filter. -/
theorem archive_sets_flag_only_and_hides_from_peek
    (st : Store) (id_ : Nat) (t : Transaction)
    (h : getTransaction? st id_ = some t) :
    ∃ st', set_archived st id_ = .ok st' ∧
      getTransaction? st' id_ = some { t with archived := 1 } ∧
      (∀ u ∈ st.transactions, u.transaction_id ≠ id_ → u ∈ st'.transactions) ∧
      (∀ ps u, peek_queued st' ps = some u → u.transaction_id ≠ id_) := by
  refine ⟨{ st with transactions :=
      updateTransaction st.transactions id_ (fun u => { u with archived := 1 }) },
    ?_, ?_, ?_, ?_⟩
  · simp [set_archived, guardedUpdate, getOrRaise, h]
  · exact find?_updateTransaction st.transactions id_
      (fun u => { u with archived := 1 }) (fun u => rfl) t h
  · intro u hu hne
    exact mem_updateTransaction_of_ne st.transactions id_ _ u hu hne
  · intro ps u hpeek hid
    obtain ⟨hmem, hpred, _⟩ := peek_queued_sound _ ps u hpeek
    have harch : u.archived = 1 := by
      rcases mem_updateTransaction st.transactions id_ _ u hmem with
        ⟨w, _, hwne, rfl⟩ | ⟨w, _, _, rfl⟩
      · exact absurd hid hwne
      · rfl
    have := ((peekPred_iff ps u).mp hpred).2.1
    rw [harch] at this
    exact Nat.one_ne_zero this

/-- A single queued, unarchived `waiting` row with id 1. -/
def oneQueued : Store :=
  { transactions := [{ transaction_id := 1, processing_state := "waiting" }],
    next_id := 2 }

/-- Witness for C9 on a store with one queued row. -/
theorem archive_sets_flag_only_and_hides_from_peek_witness :
    ∃ st', set_archived oneQueued 1 = .ok st' ∧
      getTransaction? st' 1 = some
        { transaction_id := 1, processing_state := "waiting", archived := 1 } ∧
      (∀ u ∈ oneQueued.transactions, u.transaction_id ≠ 1 →
        u ∈ st'.transactions) ∧
      (∀ ps u, peek_queued st' ps = some u → u.transaction_id ≠ 1) :=
  archive_sets_flag_only_and_hides_from_peek oneQueued 1
    { transaction_id := 1, processing_state := "waiting" } (by decide)

/-- Store-level form of `find?_updateTransaction`. -/
lemma getTransaction?_update (st : Store) (id_ : Nat)
    (f : Transaction → Transaction)
    (hf : ∀ u, (f u).transaction_id = u.transaction_id) (t : Transaction)
    (h : getTransaction? st id_ = some t) :
    getTransaction?
      { st with transactions := updateTransaction st.transactions id_ f } id_
      = some (f t) :=
  find?_updateTransaction st.transactions id_ f hf t h

/-- Closed form of the `set_processing` row mutation: only the six
overwritten fields and (when previously unset) `start_date` change. -/
lemma processingRow_eq (nps lm : String) (tp : Int) (now : Nat)
    (t : Transaction) :
    processingRow nps lm tp now t =
      { t with processing_state := nps, task_state := TaskState.processing,
               last_message := some lm, task_cancelled := 0, task_skipped := 0,
               task_progress := tp,
               start_date := some (t.start_date.getD now) } := by
  cases ht : t.start_date <;> simp [processingRow, ht]

/-- `processingRow` keeps the primary key. -/
lemma processingRow_tid (nps lm : String) (tp : Int) (now : Nat)
    (t : Transaction) :
    (processingRow nps lm tp now t).transaction_id = t.transaction_id := by
  rw [processingRow_eq]

/-- C6: `set_processing` on an existing id moves the row to
`TaskState.processing`, clears the skipped and cancelled flags,
unconditionally overwrites `processing_state`, the payload and the
progress value, sets `start_date` only when it was unset — and a second
`set_processing` on the same id leaves `start_date` at the value the first
call recorded. -/
theorem advance_overwrites_and_sets_start_date_once
    (st : Store) (id_ : Nat) (nps lm : String) (tp : Int) (now : Nat)
    (t : Transaction) (h : getTransaction? st id_ = some t) :
    ∃ st', set_processing st id_ nps lm tp now = .ok st' ∧
      getTransaction? st' id_ = some
        { t with processing_state := nps, task_state := TaskState.processing,
                 last_message := some lm, task_cancelled := 0,
                 task_skipped := 0, task_progress := tp,
                 start_date := some (t.start_date.getD now) } ∧
      ∀ nps2 lm2 tp2 now2, ∃ st'',
        set_processing st' id_ nps2 lm2 tp2 now2 = .ok st'' ∧
        (getTransaction? st'' id_).map Transaction.start_date
          = some (some (t.start_date.getD now)) := by
  refine ⟨{ st with transactions :=
      updateTransaction st.transactions id_ (processingRow nps lm tp now) },
    ?_, ?_, ?_⟩
  · simp [set_processing, guardedUpdate, getOrRaise, h]
  · have h1 := getTransaction?_update st id_ (processingRow nps lm tp now)
      (processingRow_tid nps lm tp now) t h
    rw [processingRow_eq] at h1
    exact h1
  · intro nps2 lm2 tp2 now2
    have h1 := getTransaction?_update st id_ (processingRow nps lm tp now)
      (processingRow_tid nps lm tp now) t h
    refine ⟨{ st with transactions :=
        (updateTransaction
          (updateTransaction st.transactions id_ (processingRow nps lm tp now))
          id_ (processingRow nps2 lm2 tp2 now2)) }, ?_, ?_⟩
    · simp [set_processing, guardedUpdate, getOrRaise, h1]
    · have h2 : getTransaction?
          { st with transactions :=
            (updateTransaction
              (updateTransaction st.transactions id_ (processingRow nps lm tp now))
              id_ (processingRow nps2 lm2 tp2 now2)) } id_
          = some (processingRow nps2 lm2 tp2 now2 (processingRow nps lm tp now t)) :=
        getTransaction?_update _ id_ (processingRow nps2 lm2 tp2 now2)
          (processingRow_tid nps2 lm2 tp2 now2) _ h1
      rw [h2, processingRow_eq nps2 lm2 tp2 now2, processingRow_eq nps lm tp now]
      rfl

/-- A queued row with id 1 and no `start_date` yet. -/
def freshRow : Transaction := { transaction_id := 1 }

/-- Witness for C6: advancing the fresh row twice records `start_date` from
the first call (time 50) and keeps it on the second (time 99). -/
theorem advance_overwrites_and_sets_start_date_once_witness :
    ∃ st', set_processing { transactions := [freshRow], next_id := 2 } 1
        "spm" "msg" 10 50 = .ok st' ∧
      getTransaction? st' 1 = some
        { freshRow with processing_state := "spm",
                        task_state := TaskState.processing,
                        last_message := some "msg", task_cancelled := 0,
                        task_skipped := 0, task_progress := 10,
                        start_date := some (freshRow.start_date.getD 50) } ∧
      ∀ nps2 lm2 tp2 now2, ∃ st'',
        set_processing st' 1 nps2 lm2 tp2 now2 = .ok st'' ∧
        (getTransaction? st'' 1).map Transaction.start_date
          = some (some (freshRow.start_date.getD 50)) :=
  advance_overwrites_and_sets_start_date_once
    { transactions := [freshRow], next_id := 2 } 1 "spm" "msg" 10 50 freshRow
    (by decide)

/-- Closed form of the `set_completed` row mutation. -/
lemma completedRow_eq (ce : Bool) (now : Nat) (t : Transaction) :
    completedRow ce now t =
      { t with task_state := TaskState.completed,
               status := if t.status = none ∨ t.status = some "" then
                           some "unseen" else t.status,
               start_date := some (t.start_date.getD now),
               end_date := some (t.end_date.getD now),
               error := if ce then some "" else t.error } := by
  by_cases hs : t.status = none ∨ t.status = some "" <;>
    cases h1 : t.start_date <;> cases h2 : t.end_date <;> cases ce <;>
      simp [completedRow, hs, h1, h2]

/-- `completedRow` keeps the primary key. -/
lemma completedRow_tid (ce : Bool) (now : Nat) (t : Transaction) :
    (completedRow ce now t).transaction_id = t.transaction_id := by
  rw [completedRow_eq]

/-- C7: `set_completed` on an existing id moves the row to
`TaskState.completed`; it sets `status` to `'unseen'` only when `status`
was unset (NULL or `''`) and never overwrites an existing one — a
`'reviewed'` row stays `'reviewed'`; it sets `start_date` and `end_date`
only when they were unset; and it sets `error` to `''` iff `clear_error`
is true, leaving `error` untouched otherwise. -/
theorem complete_defaults_status_once_and_clears_error_iff
    (st : Store) (id_ : Nat) (ce : Bool) (now : Nat) (t : Transaction)
    (h : getTransaction? st id_ = some t) :
    ∃ st', set_completed st id_ ce now = .ok st' ∧
      getTransaction? st' id_ = some
        { t with task_state := TaskState.completed,
                 status := if t.status = none ∨ t.status = some "" then
                             some "unseen" else t.status,
                 start_date := some (t.start_date.getD now),
                 end_date := some (t.end_date.getD now),
                 error := if ce then some "" else t.error } ∧
      (t.status = some "reviewed" →
        (getTransaction? st' id_).map Transaction.status
          = some (some "reviewed")) := by
  have hfind := getTransaction?_update st id_ (completedRow ce now)
    (completedRow_tid ce now) t h
  refine ⟨{ st with transactions :=
      updateTransaction st.transactions id_ (completedRow ce now) },
    ?_, ?_, ?_⟩
  · simp [set_completed, guardedUpdate, getOrRaise, h]
  · rw [hfind, completedRow_eq]
  · intro hrev
    rw [hfind, completedRow_eq]
    simp [hrev]

/-- A completed-candidate row with `status` already `'reviewed'`. -/
def reviewedRow : Transaction :=
  { transaction_id := 1, status := some "reviewed", error := some "boom" }

/-- Witness for C7: completing the reviewed row keeps `status` at
`'reviewed'` and (with `clear_error := false`) keeps the error. -/
theorem complete_defaults_status_once_and_clears_error_iff_witness :
    ∃ st', set_completed { transactions := [reviewedRow], next_id := 2 } 1
        false 40 = .ok st' ∧
      getTransaction? st' 1 = some
        { reviewedRow with task_state := TaskState.completed,
                           status := if reviewedRow.status = none ∨
                               reviewedRow.status = some "" then some "unseen"
                             else reviewedRow.status,
                           start_date := some (reviewedRow.start_date.getD 40),
                           end_date := some (reviewedRow.end_date.getD 40),
                           error := if false then some ""
                             else reviewedRow.error } ∧
      (reviewedRow.status = some "reviewed" →
        (getTransaction? st' 1).map Transaction.status
          = some (some "reviewed")) :=
  complete_defaults_status_once_and_clears_error_iff
    { transactions := [reviewedRow], next_id := 2 } 1 false 40 reviewedRow
    (by decide)

/-- Content-opaque instantiation of the `t_id` JSON injection (a blob the
store cannot parse is returned unchanged). -/
def idInject : String → Nat → String := fun s _ => s

/-- Instantiation of `index.set_index_sequences` that indexes nothing. -/
def idIndexSeq : Transaction → Transaction := fun t => t

/-- C5: evaluating `create_transaction` on an empty store with an owner id
(7) that resolves to no user.  The call commits the new row (id 1), then
raises the not-found error — and when the error propagates, the committed
store STILL CONTAINS the inserted row: the except branch registers
`session.delete(t)` in the session (`pending_delete`) but never commits it,
so the partially created row does persist, contrary to the claim. -/
theorem create_with_unknown_owner_leaves_inserted_row :
    (create_transaction idInject idIndexSeq {} 100 {} (some 7)).result
      = .error (.transactionDBException "The provided user doesn't exist") ∧
    ((create_transaction idInject idIndexSeq {} 100 {}
        (some 7)).store.transactions.map Transaction.transaction_id) = [1] ∧
    (create_transaction idInject idIndexSeq {} 100 {}
        (some 7)).pending_delete = some 1 :=
  ⟨rfl, rfl, rfl⟩

end MediaireToolbox

